import Mathlib

/-!
Verification of the GAA stats backend's live event ledger, correction
protocol, stats aggregation, lifecycle actions and websocket fanout.

The definitions below are a shallow embedding of the Python source:

* `MatchEventViewSet.perform_create` / `MatchEventViewSet.undo`
  (views/viewsets.py) become `perform_create` / `undo` over an explicit
  `LedgerState`;
* `MatchViewSet.start_match` / `complete_match` become `start_match` /
  `complete_match`;
* `StatsViewSet.player_summary` / `match_summary` (views/viewsets.py),
  the report fold of `generate_match_report_pdf` (reports/match_report.py)
  and the `Match.total_club_score` property (models_backup) become the
  corresponding pure functions over event lists;
* the default `ModelViewSet` update and destroy actions on
  `MatchEventViewSet` - which rewrite the writable serializer fields
  (player, minute, event_type, data, corrected_event) with no ownership
  or link check - become `update_event` / `destroy_event`;
* `MatchConsumer.connect` and `broadcast_to_match` (consumers) become
  `connect` over a lookup environment and `broadcastRecipients` over a
  group-membership registry.

Django's auto-assigned integer primary key is modelled by the `nextId`
counter of `LedgerState`.  The wall-clock `timestamp` column is omitted:
no verified property depends on it.  The distinct error messages raised
by the Python code are modelled as distinct `ApiError` constructors.
-/

/-- Event kinds, from `MatchEvent.EVENT_TYPE_CHOICES` (models_backup). -/
inductive EventType where
  | score_goal
  | score_1point
  | score_2point
  | shot_on_target
  | shot_wide
  | shot_saved
  | tackle_won
  | tackle_lost
  | block
  | turnover_lost
  | turnover_won
  | kickout_won
  | kickout_lost
  | substitution
  | injury
  | foul_committed
  | foul_conceded
deriving DecidableEq, Repr

/-- Match lifecycle phases, from `Match.STATUS_CHOICES` (models_backup). -/
inductive MatchStatus where
  | scheduled
  | in_progress
  | completed
  | postponed
  | cancelled
deriving DecidableEq, Repr

/-- Entry modes, from `Match.ENTRY_MODE_CHOICES` (models_backup). -/
inductive EntryMode where
  | live
  | post_match
deriving DecidableEq, Repr

/-- A player row: identifier plus owning club (tenant), from `Player`. -/
structure PlayerRec where
  id : Nat
  club : Nat
deriving DecidableEq, Repr

/-- A match row, from `Match` (models_backup): owning club, lifecycle
status, entry mode and the stored (manually maintained) score fields. -/
structure MatchRec where
  id : Nat
  club : Nat
  status : MatchStatus
  entry_mode : EntryMode
  club_goals : Nat
  club_1point : Nat
  club_2point : Nat
  opposition_goals : Nat
deriving DecidableEq, Repr

/-- A match event row, from `MatchEvent` (models_backup).  `player` embeds
the referenced player row; `corrected_event` holds the id of the event
that superseded this one, when set. -/
structure MatchEvent where
  id : Nat
  matchId : Nat
  player : Option PlayerRec
  minute : Nat
  event_type : EventType
  data : String
  corrected_event : Option Nat
deriving DecidableEq, Repr

/-- The mutable state owned by one match: the match row, its event rows
and Django's next auto primary key value. -/
structure LedgerState where
  mtch : MatchRec
  events : List MatchEvent
  nextId : Nat
deriving DecidableEq, Repr

/-- Distinct error outcomes of the API layer.  The Python code raises
`serializers.ValidationError` / returns 4xx responses with distinct
messages; each distinct message is one constructor here. -/
inductive ApiError where
  | ownershipViolation
  | invalidState
  | alreadyCorrected
  | notFound
deriving DecidableEq, Repr

/-- A match as freshly created: no events, next primary key 0. -/
def initState (m : MatchRec) : LedgerState :=
  { mtch := m, events := [], nextId := 0 }

/-- Embeds `MatchEventViewSet.perform_create` (views/viewsets.py
lines 280-298): reject a player from another club, reject unless the
match is in progress, otherwise `serializer.save()` persists the
validated writable fields - which, per `MatchEventSerializer`, include a
client-supplied `corrected_event` link (`cl` here) - and Django assigns
the next primary key. -/
def perform_create (s : LedgerState) (player : Option PlayerRec)
    (minute : Nat) (et : EventType) (d : String) (cl : Option Nat) :
    Except ApiError (LedgerState × MatchEvent) :=
  match player with
  | some p =>
    if p.club ≠ s.mtch.club then
      .error .ownershipViolation
    else if s.mtch.status ≠ .in_progress then
      .error .invalidState
    else
      let e : MatchEvent :=
        { id := s.nextId, matchId := s.mtch.id, player := some p,
          minute := minute, event_type := et, data := d,
          corrected_event := cl }
      .ok ({ s with events := s.events ++ [e], nextId := s.nextId + 1 }, e)
  | none =>
    if s.mtch.status ≠ .in_progress then
      .error .invalidState
    else
      let e : MatchEvent :=
        { id := s.nextId, matchId := s.mtch.id, player := none,
          minute := minute, event_type := et, data := d,
          corrected_event := cl }
      .ok ({ s with events := s.events ++ [e], nextId := s.nextId + 1 }, e)

/-- Embeds `MatchEventViewSet.undo` (views/viewsets.py lines 318-351):
look up the original event, fail if it was already undone, otherwise
create a copy whose `corrected_event` points back at the original, then
set the original's `corrected_event` to the copy. -/
def undo (s : LedgerState) (eid : Nat) :
    Except ApiError (LedgerState × MatchEvent) :=
  match s.events.find? (fun e => e.id == eid) with
  | none => .error .notFound
  | some orig =>
    if orig.corrected_event.isSome then
      .error .alreadyCorrected
    else
      let ce : MatchEvent :=
        { id := s.nextId, matchId := orig.matchId, player := orig.player,
          minute := orig.minute, event_type := orig.event_type,
          data := orig.data, corrected_event := some orig.id }
      let events' :=
        (s.events.map fun e =>
          if e.id == eid then { e with corrected_event := some ce.id } else e)
        ++ [ce]
      .ok ({ s with events := events', nextId := s.nextId + 1 }, ce)

/-- Embeds `MatchViewSet.start_match` (views/viewsets.py lines 178-189):
unconditionally sets the status to `in_progress` and saves. -/
def start_match (m : MatchRec) : MatchRec :=
  { m with status := .in_progress }

/-- Embeds `MatchViewSet.complete_match` (views/viewsets.py
lines 191-202): unconditionally sets the status to `completed`. -/
def complete_match (m : MatchRec) : MatchRec :=
  { m with status := .completed }

/-- Embeds the default `ModelViewSet` update/partial-update on
`MatchEventViewSet`: `serializer.save()` rewrites the writable
serializer fields (player, minute, event_type, data, corrected_event)
of the addressed event.  `id` and `created_at` are read-only, and the
viewset overrides no `perform_update`, so no ownership or link check
runs.  (The `match` foreign key is also writable; re-pointing it moves
the row to another match's ledger, which this single-match state sees
as `destroy_event`.) -/
def update_event (s : LedgerState) (eid : Nat) (p : Option PlayerRec)
    (mi : Nat) (et : EventType) (d : String) (cl : Option Nat) :
    LedgerState :=
  { s with
    events := s.events.map fun e =>
      if e.id == eid then
        { e with player := p, minute := mi, event_type := et, data := d,
                 corrected_event := cl }
      else e }

/-- Embeds the default `ModelViewSet` destroy on `MatchEventViewSet`:
deletes the addressed event row; no override restricts it. -/
def destroy_event (s : LedgerState) (eid : Nat) : LedgerState :=
  { s with events := s.events.filter fun e => e.id != eid }

/-- States of one match reachable through the API surface: a fresh match
followed by any interleaving of event appends, undo corrections,
unguarded event updates and deletes, and the two lifecycle actions. -/
inductive Reachable : LedgerState → Prop where
  | init (m : MatchRec) : Reachable (initState m)
  | step_append {s s' : LedgerState} {p : Option PlayerRec} {mi : Nat}
      {et : EventType} {d : String} {cl : Option Nat} {e : MatchEvent} :
      Reachable s → perform_create s p mi et d cl = .ok (s', e) →
      Reachable s'
  | step_undo {s s' : LedgerState} {eid : Nat} {e : MatchEvent} :
      Reachable s → undo s eid = .ok (s', e) → Reachable s'
  | step_update {s : LedgerState} {eid : Nat} {p : Option PlayerRec}
      {mi : Nat} {et : EventType} {d : String} {cl : Option Nat} :
      Reachable s → Reachable (update_event s eid p mi et d cl)
  | step_destroy {s : LedgerState} {eid : Nat} :
      Reachable s → Reachable (destroy_event s eid)
  | step_start {s : LedgerState} :
      Reachable s → Reachable { s with mtch := start_match s.mtch }
  | step_complete {s : LedgerState} :
      Reachable s → Reachable { s with mtch := complete_match s.mtch }

/-- Counts the events of one kind, embedding the repeated
`events.filter(event_type=...).count()` queries of `StatsViewSet`. -/
def countType (evs : List MatchEvent) (t : EventType) : Nat :=
  (evs.filter fun e => e.event_type == t).length

/-- The integer fields of the `player_summary` response. -/
structure PlayerSummary where
  goals : Nat
  point_1 : Nat
  point_2 : Nat
  shots_on_target : Nat
  shots_wide : Nat
  shots_saved : Nat
  tackles_won : Nat
  tackles_lost : Nat
  blocks : Nat
  turnovers_lost : Nat
  turnovers_won : Nat
  total_score : Nat
  total_shots : Nat
deriving DecidableEq, Repr

/-- Embeds `StatsViewSet.player_summary` (views/viewsets.py
lines 412-463): filter the events down to the given player, count each
kind, and derive `total_score = goals*3 + point_1 + point_2*2` and
`total_shots`.  The float-valued `tackle_success_rate` is omitted.  Note
the source applies no filter on `corrected_event`. -/
def player_summary (evs : List MatchEvent) (pid : Nat) : PlayerSummary :=
  let events := evs.filter fun e =>
    match e.player with
    | some p => p.id == pid
    | none => false
  let goals := countType events .score_goal
  let point_1 := countType events .score_1point
  let point_2 := countType events .score_2point
  let shots_on_target := countType events .shot_on_target
  let shots_wide := countType events .shot_wide
  let shots_saved := countType events .shot_saved
  { goals := goals, point_1 := point_1, point_2 := point_2,
    shots_on_target := shots_on_target, shots_wide := shots_wide,
    shots_saved := shots_saved,
    tackles_won := countType events .tackle_won,
    tackles_lost := countType events .tackle_lost,
    blocks := countType events .block,
    turnovers_lost := countType events .turnover_lost,
    turnovers_won := countType events .turnover_won,
    total_score := goals * 3 + point_1 + point_2 * 2,
    total_shots := shots_on_target + shots_wide + shots_saved }

/-- The score part of the `match_summary` response. -/
structure MatchSummaryScore where
  goals : Nat
  point_1 : Nat
  point_2 : Nat
  total : Nat
deriving DecidableEq, Repr

/-- Embeds the score computation of `StatsViewSet.match_summary`
(views/viewsets.py lines 493-500): restrict to home events (events whose
player belongs to the match's club), count the three score kinds and
derive `club_score = goals*3 + point_1 + point_2*2`.  No filter on
`corrected_event` is applied in the source. -/
def match_summary_score (m : MatchRec) (evs : List MatchEvent) :
    MatchSummaryScore :=
  let home_events := evs.filter fun e =>
    match e.player with
    | some p => p.club == m.club
    | none => false
  let goals := countType home_events .score_goal
  let point_1 := countType home_events .score_1point
  let point_2 := countType home_events .score_2point
  { goals := goals, point_1 := point_1, point_2 := point_2,
    total := goals * 3 + point_1 + point_2 * 2 }

/-- The team-level accumulator of `generate_match_report_pdf`. -/
structure TeamStats where
  goals : Nat
  point_1 : Nat
  point_2 : Nat
  shots_taken : Nat
  shots_on_target : Nat
  tackles_won : Nat
deriving DecidableEq, Repr

/-- One step of the team-stats fold of `generate_match_report_pdf`
(reports/match_report.py lines 37-52). -/
def stepTeamStats (ts : TeamStats) (e : MatchEvent) : TeamStats :=
  match e.event_type with
  | .score_goal => { ts with goals := ts.goals + 1 }
  | .score_1point => { ts with point_1 := ts.point_1 + 1 }
  | .score_2point => { ts with point_2 := ts.point_2 + 1 }
  | .shot_on_target =>
    { ts with shots_taken := ts.shots_taken + 1,
              shots_on_target := ts.shots_on_target + 1 }
  | .shot_wide => { ts with shots_taken := ts.shots_taken + 1 }
  | .shot_saved => { ts with shots_taken := ts.shots_taken + 1 }
  | .tackle_won => { ts with tackles_won := ts.tackles_won + 1 }
  | _ => ts

/-- The team-stats fold over all of a match's events, as in
`generate_match_report_pdf`; the source iterates over every event with
no `corrected_event` filter. -/
def match_report_team_stats (evs : List MatchEvent) : TeamStats :=
  evs.foldl stepTeamStats ⟨0, 0, 0, 0, 0, 0⟩

/-- The report's total score (reports/match_report.py line 86):
`goals*3 + point_1 + point_2` - the two-point count is not doubled. -/
def match_report_total_score (evs : List MatchEvent) : Nat :=
  let ts := match_report_team_stats evs
  ts.goals * 3 + ts.point_1 + ts.point_2

/-- Embeds the `Match.total_club_score` property (models_backup
lines 198-201): `club_goals*3 + club_1point + club_2point` over the
stored score fields - again without doubling the two-point count. -/
def total_club_score (m : MatchRec) : Nat :=
  m.club_goals * 3 + m.club_1point + m.club_2point

/-- The club score block served by `MatchConsumer.get_match_state`
(consumers lines 165-179): the stored match fields plus the
`total_club_score` property. -/
structure SnapshotScore where
  goals : Nat
  point_1 : Nat
  point_2 : Nat
  total : Nat
deriving DecidableEq, Repr

/-- Embeds the club half of the `score` object in
`MatchConsumer.get_match_state`: it reads the stored fields of the
`Match` row, not the event ledger. -/
def get_match_state_score (s : LedgerState) : SnapshotScore :=
  { goals := s.mtch.club_goals, point_1 := s.mtch.club_1point,
    point_2 := s.mtch.club_2point, total := total_club_score s.mtch }

/-- Stable insertion keeping earlier elements first among equal minutes,
used to model the SQL `ORDER BY minute` of the event-list endpoint. -/
def insertByMinute (x : MatchEvent) : List MatchEvent → List MatchEvent
  | [] => [x]
  | y :: ys =>
    if x.minute ≤ y.minute then x :: y :: ys else y :: insertByMinute x ys

/-- Stable sort by `minute`. -/
def sortByMinute : List MatchEvent → List MatchEvent
  | [] => []
  | x :: xs => insertByMinute x (sortByMinute xs)

/-- Embeds the match-scoped branch of `MatchEventViewSet.get_queryset`
(views/viewsets.py line 276): the events of the match ordered by the
user-supplied `minute` (`.order_by('minute')`). -/
def events_for_match (s : LedgerState) : List MatchEvent :=
  sortByMinute s.events

/-- The legal lifecycle transition set as written in the specification
(spec section 4.4).  This definition follows the spec's words, not the
source, and exists only to be compared with `start_match` /
`complete_match`. -/
def specLegalTransition : MatchStatus → MatchStatus → Bool
  | .scheduled, .in_progress => true
  | .scheduled, .postponed => true
  | .scheduled, .cancelled => true
  | .in_progress, .completed => true
  | .postponed, .scheduled => true
  | _, _ => false

/-- A websocket caller, from the `user` in the consumer's scope. -/
structure UserRec where
  id : Nat
  is_authenticated : Bool
deriving DecidableEq, Repr

/-- A user profile row: user id and owning club, from `UserProfile`. -/
structure UserProfileRec where
  userId : Nat
  club : Nat
deriving DecidableEq, Repr

/-- The database rows the consumer's lookups read. -/
structure ConnectEnv where
  matchRows : List MatchRec
  profiles : List UserProfileRec
deriving DecidableEq, Repr

/-- Outcome of the websocket handshake: a close code or an accepted
connection joined to the match's group. -/
inductive ConnectResult where
  | closed (code : Nat)
  | accepted (groupMatchId : Nat)
deriving DecidableEq, Repr

/-- Embeds `MatchConsumer.get_match` (consumers lines 139-143). -/
def get_match (env : ConnectEnv) (mid : Nat) : Option MatchRec :=
  env.matchRows.find? fun m => m.id == mid

/-- Embeds `MatchConsumer.get_user_profile` (consumers lines 145-149). -/
def get_user_profile (env : ConnectEnv) (uid : Nat) : Option UserProfileRec :=
  env.profiles.find? fun pr => pr.userId == uid

/-- Embeds `MatchConsumer.connect` (consumers lines 23-57): close 4001
without an authenticated user, close 4004 when either lookup raises,
close 4003 on a club mismatch, otherwise join the match group and
accept. -/
def connect (env : ConnectEnv) (matchId : Nat) (user : Option UserRec) :
    ConnectResult :=
  match user with
  | none => .closed 4001
  | some u =>
    if ¬u.is_authenticated then .closed 4001
    else
      match get_match env matchId, get_user_profile env u.id with
      | some m, some prof =>
        if m.club ≠ prof.club then .closed 4003
        else .accepted matchId
      | _, _ => .closed 4004

/-- The group joined by the handshake, if any: only an accepted
connection is added to a fanout group. -/
def group_joined : ConnectResult → Option Nat
  | .accepted g => some g
  | .closed _ => none

/-- Registry of group memberships as (match id, connection id) pairs,
updated by the handshake outcome. -/
def registry_after_connect (registry : List (Nat × Nat)) (connId : Nat)
    (r : ConnectResult) : List (Nat × Nat) :=
  match r with
  | .accepted g => (g, connId) :: registry
  | .closed _ => registry

/-- Embeds `broadcast_to_match` (consumers lines 186-207): a group send
reaches exactly the connections currently in the match's group. -/
def broadcastRecipients (registry : List (Nat × Nat)) (mid : Nat) :
    List Nat :=
  (registry.filter fun x => x.1 == mid).map fun x => x.2

/-- Every stored event id is below the next primary key value. -/
def IdBound (s : LedgerState) : Prop :=
  ∀ e ∈ s.events, e.id < s.nextId

/-- Event ids are pairwise distinct (the primary key constraint). -/
def NodupIds (s : LedgerState) : Prop :=
  (s.events.map fun e => e.id).Nodup

/-- Every event's player reference is owned by the match's club.  This
property is preserved by append and undo but not by the unguarded
update action. -/
def PlayerOwned (s : LedgerState) : Prop :=
  ∀ e ∈ s.events, ∀ q, e.player = some q → q.club = s.mtch.club

/-- Correction links come in mutual pairs: whenever an event links to a
successor, that successor links straight back.  This is the shape the
undo endpoint alone produces; client-supplied links on create or update
can break it. -/
def MutualLinks (s : LedgerState) : Prop :=
  ∀ e₁ ∈ s.events, ∀ i, e₁.corrected_event = some i →
    ∃ e₂ ∈ s.events, e₂.id = i ∧ e₂.corrected_event = some e₁.id

/-- Inversion of a successful `perform_create`. -/
theorem perform_create_ok {s : LedgerState} {p : Option PlayerRec}
    {mi : Nat} {et : EventType} {d : String} {cl : Option Nat}
    {s' : LedgerState} {e : MatchEvent}
    (h : perform_create s p mi et d cl = .ok (s', e)) :
    s.mtch.status = .in_progress ∧
    (∀ q, p = some q → q.club = s.mtch.club) ∧
    s' = { s with events := s.events ++ [e], nextId := s.nextId + 1 } ∧
    e = { id := s.nextId, matchId := s.mtch.id, player := p, minute := mi,
          event_type := et, data := d, corrected_event := cl } := by
  cases p with
  | none =>
    by_cases hst : s.mtch.status = .in_progress
    · simp only [perform_create, hst, ne_eq, not_true_eq_false,
        ite_false, Except.ok.injEq, Prod.mk.injEq, if_neg,
        not_false_eq_true] at h
      obtain ⟨h1, h2⟩ := h
      subst h2
      refine ⟨hst, ?_, h1.symm, rfl⟩
      intro q hq
      cases hq
    · simp [perform_create, hst] at h
  | some q =>
    by_cases hcl : q.club = s.mtch.club
    · by_cases hst : s.mtch.status = .in_progress
      · simp only [perform_create, hcl, hst, ne_eq, not_true_eq_false,
          ite_false, Except.ok.injEq, Prod.mk.injEq, if_neg,
          not_false_eq_true] at h
        obtain ⟨h1, h2⟩ := h
        subst h2
        refine ⟨hst, ?_, h1.symm, rfl⟩
        intro q' hq'
        cases hq'
        exact hcl
      · simp [perform_create, hcl, hst] at h
    · simp [perform_create, hcl] at h

/-- Inversion of a successful `undo`. -/
theorem undo_ok {s : LedgerState} {eid : Nat} {s' : LedgerState}
    {ce : MatchEvent} (h : undo s eid = .ok (s', ce)) :
    ∃ orig, s.events.find? (fun e => e.id == eid) = some orig ∧
      orig.id = eid ∧ orig.corrected_event = none ∧
      ce = { id := s.nextId, matchId := orig.matchId, player := orig.player,
             minute := orig.minute, event_type := orig.event_type,
             data := orig.data, corrected_event := some orig.id } ∧
      s' = { s with
             events :=
               (s.events.map fun ev =>
                 if ev.id == eid then
                   { ev with corrected_event := some s.nextId }
                 else ev) ++ [ce],
             nextId := s.nextId + 1 } := by
  unfold undo at h
  split at h
  · cases h
  · rename_i orig hfind
    split at h
    · cases h
    · rename_i hnone
      simp only [Except.ok.injEq, Prod.mk.injEq] at h
      obtain ⟨h1, h2⟩ := h
      have hid : orig.id = eid := by
        have := List.find?_some hfind
        simpa using this
      refine ⟨orig, hfind, hid, ?_, h2.symm, ?_⟩
      · cases hcor : orig.corrected_event with
        | none => rfl
        | some j => rw [hcor] at hnone; simp at hnone
      · rw [h1.symm, h2]

/-- A successful `undo` leaves the underlying event ids unchanged except
for appending the fresh one. -/
theorem map_id_of_link_update (evs : List MatchEvent) (eid nid : Nat) :
    ((evs.map fun ev =>
        if ev.id == eid then { ev with corrected_event := some nid }
        else ev).map fun e => e.id) = evs.map fun e => e.id := by
  rw [List.map_map]
  apply List.map_congr_left
  intro e _
  simp only [Function.comp_apply]
  split <;> rfl

/-- A map that leaves every event's id unchanged leaves the id column
unchanged. -/
theorem map_id_congr {evs : List MatchEvent} {f : MatchEvent → MatchEvent}
    (hf : ∀ e, (f e).id = e.id) :
    ((evs.map f).map fun e => e.id) = evs.map fun e => e.id := by
  rw [List.map_map]
  apply List.map_congr_left
  intro e _
  exact hf e

/-- The primary-key invariants (every stored id below the next key, and
pairwise distinct ids) hold in every reachable state: appends use the
next key, undo copies use the next key, updates leave ids untouched
(the id field is read-only) and deletes only remove rows. -/
theorem reachable_inv {s : LedgerState} (h : Reachable s) :
    IdBound s ∧ NodupIds s := by
  induction h with
  | init m =>
    constructor
    · intro e he; simp [initState] at he
    · simp [NodupIds, initState]
  | step_append hr hok ih =>
    obtain ⟨hib, hnd⟩ := ih
    obtain ⟨hst, hcl, hs', he⟩ := perform_create_ok hok
    subst hs' he
    constructor
    · intro e hmem
      simp only [List.mem_append, List.mem_singleton] at hmem
      rcases hmem with hmem | hmem
      · exact Nat.lt_succ_of_lt (hib e hmem)
      · subst hmem; exact Nat.lt_succ_self _
    · simp only [NodupIds, List.map_append, List.map_cons, List.map_nil]
      rw [List.nodup_append]
      refine ⟨hnd, List.nodup_singleton _, ?_⟩
      intro a ha hb
      simp only [List.mem_singleton] at hb
      subst hb
      obtain ⟨e, hmem, hide⟩ := List.mem_map.mp ha
      exact absurd hide (Nat.ne_of_lt (hib e hmem))
  | step_undo hr hok ih =>
    obtain ⟨hib, hnd⟩ := ih
    obtain ⟨orig, hfind, hid, hcor, hce, hs'⟩ := undo_ok hok
    rename_i s₀ s' eid ce'
    subst hs'
    constructor
    · intro e hmem
      simp only [List.mem_append, List.mem_singleton] at hmem
      rcases hmem with hmem | hmem
      · obtain ⟨ev, hev, hfe⟩ := List.mem_map.mp hmem
        have : e.id = ev.id := by
          subst hfe; by_cases hc : ev.id == eid <;> simp [hc]
        rw [this]
        exact Nat.lt_succ_of_lt (hib ev hev)
      · subst hmem; rw [hce]; exact Nat.lt_succ_self _
    · simp only [NodupIds, List.map_append, List.map_cons, List.map_nil]
      rw [List.nodup_append, map_id_of_link_update]
      refine ⟨hnd, List.nodup_singleton _, ?_⟩
      intro a ha hb
      simp only [List.mem_singleton] at hb
      obtain ⟨e, hmem, hide⟩ := List.mem_map.mp ha
      rw [hce] at hb
      simp only at hb
      exact absurd (hide.trans hb) (Nat.ne_of_lt (hib e hmem))
  | step_update hr ih =>
    obtain ⟨hib, hnd⟩ := ih
    constructor
    · intro e hmem
      simp only [update_event] at hmem
      obtain ⟨ev, hev, hfe⟩ := List.mem_map.mp hmem
      have : e.id = ev.id := by
        subst hfe; split <;> rfl
      rw [this]
      exact hib ev hev
    · simp only [NodupIds, update_event]
      rw [map_id_congr fun e => by split <;> rfl]
      exact hnd
  | step_destroy hr ih =>
    obtain ⟨hib, hnd⟩ := ih
    constructor
    · intro e hmem
      simp only [destroy_event] at hmem
      exact hib e (List.mem_of_mem_filter hmem)
    · simp only [NodupIds, destroy_event]
      exact List.Nodup.sublist
        (List.Sublist.map _ (List.filter_sublist _)) hnd
  | step_start hr ih =>
    exact ih
  | step_complete hr ih =>
    exact ih

/-- A demonstration match: club 1, in progress, fresh stored scores. -/
def demoMatch : MatchRec :=
  { id := 1, club := 1, status := .in_progress, entry_mode := .live,
    club_goals := 0, club_1point := 0, club_2point := 0,
    opposition_goals := 0 }

/-- A demonstration player of the same club. -/
def demoPlayer : PlayerRec := { id := 7, club := 1 }

/-- The tackle event appended in the undo scenario. -/
def demoE1 : MatchEvent :=
  { id := 0, matchId := 1, player := some demoPlayer, minute := 5,
    event_type := .tackle_won, data := "", corrected_event := none }

/-- The state after appending `demoE1` to the fresh demo match. -/
def demoS1 : LedgerState :=
  { mtch := demoMatch, events := [demoE1], nextId := 1 }

/-- The correction copy produced by `undo demoS1 0`. -/
def demoE2 : MatchEvent :=
  { id := 1, matchId := 1, player := some demoPlayer, minute := 5,
    event_type := .tackle_won, data := "", corrected_event := some 0 }

/-- The state after the undo: the original now links to the copy and the
copy links back to the original. -/
def demoS2 : LedgerState :=
  { mtch := demoMatch,
    events := [{ demoE1 with corrected_event := some 1 }, demoE2],
    nextId := 2 }

/-- Inserting keeps the list a permutation of the element plus the rest. -/
theorem insertByMinute_perm (x : MatchEvent) (l : List MatchEvent) :
    (insertByMinute x l).Perm (x :: l) := by
  induction l with
  | nil => simp [insertByMinute]
  | cons y ys ih =>
    unfold insertByMinute
    split
    · exact List.Perm.refl _
    · exact (List.Perm.cons y ih).trans (List.Perm.swap x y ys)

/-- The minute sort is a permutation of its input. -/
theorem sortByMinute_perm (l : List MatchEvent) :
    (sortByMinute l).Perm l := by
  induction l with
  | nil => simp [sortByMinute]
  | cons x xs ih =>
    exact (insertByMinute_perm x (sortByMinute xs)).trans
      (List.Perm.cons x ih)

/-- Inserting into a minute-sorted list keeps it minute-sorted. -/
theorem insertByMinute_pairwise {x : MatchEvent} {l : List MatchEvent}
    (h : l.Pairwise fun a b => a.minute ≤ b.minute) :
    (insertByMinute x l).Pairwise fun a b => a.minute ≤ b.minute := by
  induction l with
  | nil => simp [insertByMinute]
  | cons y ys ih =>
    obtain ⟨hy, hys⟩ := List.pairwise_cons.mp h
    unfold insertByMinute
    split
    · rename_i hle
      refine List.pairwise_cons.mpr ⟨?_, h⟩
      intro b hb
      rcases List.mem_cons.mp hb with hb | hb
      · rw [hb]; exact hle
      · exact Nat.le_trans hle (hy b hb)
    · rename_i hgt
      have hyx : y.minute ≤ x.minute := Nat.le_of_not_le hgt
      refine List.pairwise_cons.mpr ⟨?_, ih hys⟩
      intro b hb
      rcases List.mem_cons.mp ((insertByMinute_perm x ys).mem_iff.mp hb)
        with hb | hb
      · rw [hb]; exact hyx
      · exact hy b hb

/-- The minute sort produces a minute-sorted list. -/
theorem sortByMinute_pairwise (l : List MatchEvent) :
    (sortByMinute l).Pairwise fun a b => a.minute ≤ b.minute := by
  induction l with
  | nil => simp [sortByMinute]
  | cons x xs ih => exact insertByMinute_pairwise ih

/-- The three-score scenario state: one goal, one 1-point, one 2-point,
appended by `demoPlayer` to the fresh demo match. -/
def demoScoreState : LedgerState :=
  { mtch := demoMatch,
    events :=
      [{ id := 0, matchId := 1, player := some demoPlayer, minute := 10,
         event_type := .score_goal, data := "", corrected_event := none },
       { id := 1, matchId := 1, player := some demoPlayer, minute := 20,
         event_type := .score_1point, data := "", corrected_event := none },
       { id := 2, matchId := 1, player := some demoPlayer, minute := 30,
         event_type := .score_2point, data := "", corrected_event := none }],
    nextId := 3 }

/-- The three appends of the scenario, chained. -/
def demoScoreAppend : Except ApiError (LedgerState × MatchEvent) := do
  let (sa, _) ← perform_create (initState demoMatch) (some demoPlayer) 10
    .score_goal "" none
  let (sb, _) ← perform_create sa (some demoPlayer) 20 .score_1point "" none
  perform_create sb (some demoPlayer) 30 .score_2point "" none

/-- C1: the stats surfaces do not exclude corrected events.  After
appending tackle-won event E1 and correcting it (which stores a copy
E2), both the player-summary endpoint and the match-report fold count
two tackles won, not the one the claim requires: the correction link on
E1 does not remove its contribution, and the copy adds a second one. -/
theorem corrected_events_still_counted :
    perform_create (initState demoMatch) (some demoPlayer) 5 .tackle_won "" none
      = .ok (demoS1, demoE1)
    ∧ undo demoS1 0 = .ok (demoS2, demoE2)
    ∧ (player_summary demoS2.events demoPlayer.id).tackles_won = 2
    ∧ (match_report_team_stats demoS2.events).tackles_won = 2 :=
  ⟨rfl, rfl, rfl, rfl⟩

/-- C2: the surfaces disagree on the two-point weighting.  With one
goal, one 1-point and one 2-point appended to a fresh match, the stats
endpoints (`match_summary`, `player_summary`) report a team total of 6
(`goals*3 + p1 + p2*2`), but the match-report fold and the cached
`Match.total_club_score` projection report 5 (`goals*3 + p1 + p2`),
refuting the claim that every surface yields the `p2*2` value. -/
theorem two_point_weighting_inconsistent :
    (∃ e, demoScoreAppend = .ok (demoScoreState, e))
    ∧ (match_summary_score demoMatch demoScoreState.events).total = 6
    ∧ (player_summary demoScoreState.events demoPlayer.id).total_score = 6
    ∧ match_report_total_score demoScoreState.events = 5
    ∧ total_club_score
        { demoMatch with club_goals := 1, club_1point := 1,
                         club_2point := 1 } = 5 :=
  ⟨⟨{ id := 2, matchId := 1, player := some demoPlayer, minute := 30,
      event_type := .score_2point, data := "", corrected_event := none },
    rfl⟩, rfl, rfl, rfl, rfl⟩

/-- C3 counterexample: after one correction of E1, the ledger holds two
events carrying a correction link - the original (to the copy) and the
copy (back to the original) - not the single link the claim states. -/
theorem undo_creates_two_correction_links :
    undo demoS1 0 = .ok (demoS2, demoE2)
    ∧ (demoS2.events.countP fun e => e.corrected_event.isSome) = 2
    ∧ demoE2.corrected_event = some demoE1.id :=
  ⟨rfl, rfl, rfl⟩

/-- The demo match moved to the completed phase. -/
def demoCompletedMatch : MatchRec := { demoMatch with status := .completed }

/-- C4 counterexample: `completed → in_progress` is not in the legal
transition set, yet `start_match` performs it without any error and with
the side effect of changing the phase. -/
theorem start_match_ignores_legal_transitions :
    (start_match demoCompletedMatch).status = .in_progress
    ∧ demoCompletedMatch.status = .completed
    ∧ specLegalTransition .completed .in_progress = false :=
  ⟨rfl, rfl, rfl⟩

/-- C4 as amended: the lifecycle actions are unconditional.  From every
phase, `start_match` sets `in_progress` and `complete_match` sets
`completed`; no transition check exists and no `IllegalTransition`
failure is possible; all other match fields are left unchanged. -/
theorem lifecycle_actions_unconditional :
    ∀ (m : MatchRec) (ph : MatchStatus),
    (start_match { m with status := ph }).status = .in_progress
    ∧ (complete_match { m with status := ph }).status = .completed
    ∧ (start_match { m with status := ph }).club = m.club
    ∧ (complete_match { m with status := ph }).club = m.club
    ∧ (start_match { m with status := ph }).club_goals = m.club_goals
    ∧ (complete_match { m with status := ph }).club_goals = m.club_goals
    ∧ (start_match { m with status := ph }).entry_mode = m.entry_mode :=
  fun _ _ => ⟨rfl, rfl, rfl, rfl, rfl, rfl, rfl⟩

/-- The event appended at minute 45 (first, so it receives id 0). -/
def demoE45 : MatchEvent :=
  { id := 0, matchId := 1, player := some demoPlayer, minute := 45,
    event_type := .shot_wide, data := "", corrected_event := none }

/-- The event appended at minute 30 (second, so it receives id 1). -/
def demoE30 : MatchEvent :=
  { id := 1, matchId := 1, player := some demoPlayer, minute := 30,
    event_type := .shot_wide, data := "", corrected_event := none }

/-- State after the minute-45 append. -/
def demoS45 : LedgerState :=
  { mtch := demoMatch, events := [demoE45], nextId := 1 }

/-- State after both appends. -/
def demoS4530 : LedgerState :=
  { mtch := demoMatch, events := [demoE45, demoE30], nextId := 2 }

/-- C5 counterexample: append minute 45 then minute 30; the ids are
assigned in arrival order (0 then 1), but the event-list endpoint
returns the events ordered by the user-supplied minute, id 1 before
id 0 - so the server-assigned id does not define the serving order. -/
theorem listing_order_follows_minute_not_id :
    perform_create (initState demoMatch) (some demoPlayer) 45
      .shot_wide "" none = .ok (demoS45, demoE45)
    ∧ perform_create demoS45 (some demoPlayer) 30 .shot_wide "" none
      = .ok (demoS4530, demoE30)
    ∧ demoE45.id = 0 ∧ demoE30.id = 1
    ∧ (events_for_match demoS4530).map (fun e => e.id) = [1, 0] :=
  ⟨rfl, rfl, rfl, rfl, rfl⟩

/-- The goal event appended in the snapshot-staleness scenario. -/
def demoEGoal : MatchEvent :=
  { id := 0, matchId := 1, player := some demoPlayer, minute := 10,
    event_type := .score_goal, data := "", corrected_event := none }

/-- State after appending one goal to the fresh demo match. -/
def demoSGoal : LedgerState :=
  { mtch := demoMatch, events := [demoEGoal], nextId := 1 }

/-- C9 counterexample: after appending a goal event, the aggregator
recomputes a team total of 3 from the ledger, but the snapshot score
(served from the stored `Match` fields, which no code updates from
events) still reports 0. -/
theorem snapshot_score_stale_after_append :
    perform_create (initState demoMatch) (some demoPlayer) 10
      .score_goal "" none = .ok (demoSGoal, demoEGoal)
    ∧ (get_match_state_score demoSGoal).total = 0
    ∧ (match_summary_score demoSGoal.mtch demoSGoal.events).total = 3 :=
  ⟨rfl, rfl, rfl⟩

/-- C6: a subscribe handshake whose caller tenant differs from the
match's owning tenant closes with code 4003 (forbidden), distinct from
4001 (unauthenticated) and 4004 (not found); the connection is not added
to the match's fanout group, so no broadcast for that match can reach
it. -/
theorem tenant_mismatch_forbidden :
    ∀ (env : ConnectEnv) (mid : Nat) (u : UserRec) (m : MatchRec)
      (prof : UserProfileRec) (registry : List (Nat × Nat)) (connId : Nat),
    u.is_authenticated = true →
    get_match env mid = some m →
    get_user_profile env u.id = some prof →
    prof.club ≠ m.club →
    connect env mid (some u) = .closed 4003
    ∧ connect env mid (some u) ≠ .closed 4001
    ∧ connect env mid (some u) ≠ .closed 4004
    ∧ group_joined (connect env mid (some u)) = none
    ∧ ((∀ g : Nat, (g, connId) ∉ registry) →
        connId ∉ broadcastRecipients
          (registry_after_connect registry connId (connect env mid (some u)))
          mid) := by
  intro env mid u m prof registry connId hauth hm hp hne
  have hne' : m.club ≠ prof.club := fun h => hne h.symm
  have hc : connect env mid (some u) = .closed 4003 := by
    simp [connect, hauth, hm, hp, hne']
  refine ⟨hc, ?_, ?_, ?_, ?_⟩
  · rw [hc]; intro h; cases h
  · rw [hc]; intro h; cases h
  · rw [hc]; rfl
  · intro hfresh hmem
    rw [hc] at hmem
    unfold registry_after_connect at hmem
    simp only [broadcastRecipients, List.mem_map] at hmem
    obtain ⟨x, hx, hxc⟩ := hmem
    have hxreg : x ∈ registry := List.mem_of_mem_filter hx
    have : x = (x.1, connId) := by
      rw [← hxc]
    rw [this] at hxreg
    exact hfresh x.1 hxreg

/-- Concrete run of the forbidden handshake: an authenticated user of
club 2 subscribing to the club-1 demo match is closed with 4003 and no
group membership is created. -/
theorem tenant_mismatch_forbidden_witness :
    connect { matchRows := [demoMatch],
              profiles := [{ userId := 3, club := 2 }] } 1
      (some { id := 3, is_authenticated := true }) = .closed 4003
    ∧ group_joined
        (connect { matchRows := [demoMatch],
                   profiles := [{ userId := 3, club := 2 }] } 1
          (some { id := 3, is_authenticated := true })) = none := by
  have h := tenant_mismatch_forbidden
    { matchRows := [demoMatch], profiles := [{ userId := 3, club := 2 }] }
    1 { id := 3, is_authenticated := true } demoMatch
    { userId := 3, club := 2 } [] 0 rfl (by decide) (by decide) (by decide)
  exact ⟨h.1, h.2.2.2.1⟩

/-- C7: appending fails with `InvalidState` whenever the match is not
`in_progress` (given that the supplied player, if any, passes the
ownership check that the source evaluates first), and conversely every
successful append happened on an `in_progress` match - in particular no
other phase, including `completed` with the `post_match` entry mode set,
permits appends, so retrospective permission is never inferred. -/
theorem append_requires_in_progress :
    (∀ (s : LedgerState) (p : Option PlayerRec) (mi : Nat)
       (et : EventType) (d : String) (cl : Option Nat),
      (∀ q, p = some q → q.club = s.mtch.club) →
      s.mtch.status ≠ .in_progress →
      perform_create s p mi et d cl = .error .invalidState)
    ∧ (∀ (s : LedgerState) (p : Option PlayerRec) (mi : Nat)
         (et : EventType) (d : String) (cl : Option Nat)
         (s' : LedgerState) (e : MatchEvent),
        perform_create s p mi et d cl = .ok (s', e) →
        s.mtch.status = .in_progress) := by
  constructor
  · intro s p mi et d cl hown hst
    cases p with
    | none => simp [perform_create, hst]
    | some q => simp [perform_create, hown q rfl, hst]
  · intro s p mi et d cl s' e h
    exact (perform_create_ok h).1

/-- A completed match with the retrospective entry mode flag set. -/
def demoCompletedPostMatch : MatchRec :=
  { demoMatch with status := .completed, entry_mode := .post_match }

/-- Concrete run: appending to a completed match fails with
`InvalidState` even though its entry mode is `post_match`. -/
theorem append_requires_in_progress_witness :
    perform_create (initState demoCompletedPostMatch) (some demoPlayer) 10
      .score_goal "" none = .error .invalidState :=
  append_requires_in_progress.1 (initState demoCompletedPostMatch)
    (some demoPlayer) 10 .score_goal "" none
    (by intro q hq; cases hq; rfl) (by decide)

/-- A player owned by another club. -/
def demoOtherPlayer : PlayerRec := { id := 9, club := 2 }

/-- The demo ledger after an update request re-points event 0 at the
club-2 player: the serializer accepts any player and the viewset runs no
ownership check on update. -/
def demoPatchedState : LedgerState :=
  update_event demoS1 0 (some demoOtherPlayer) 5 .tackle_won "" none

/-- Event 0 as stored after the cross-club update. -/
def demoEPatched : MatchEvent :=
  { id := 0, matchId := 1, player := some demoOtherPlayer, minute := 5,
    event_type := .tackle_won, data := "", corrected_event := none }

/-- C8 counterexample: the ledger-wide ownership invariant fails.  An
update request on the appended event can re-point it at a player of
club 2 while the match belongs to club 1, and the resulting state is
reachable through the API, so not every stored event's player is owned
by the match's tenant. -/
theorem update_breaks_player_ownership :
    Reachable demoPatchedState
    ∧ demoPatchedState.events = [demoEPatched]
    ∧ demoEPatched.player = some demoOtherPlayer
    ∧ demoOtherPlayer.club ≠ demoPatchedState.mtch.club
    ∧ ¬PlayerOwned demoPatchedState := by
  have hstep : perform_create (initState demoMatch) (some demoPlayer) 5
      .tackle_won "" none = .ok (demoS1, demoE1) := rfl
  refine ⟨?_, rfl, rfl, by decide, ?_⟩
  · exact Reachable.step_update
      (Reachable.step_append (Reachable.init demoMatch) hstep)
  · intro h
    have := h demoEPatched (List.mem_singleton_self _) demoOtherPlayer rfl
    exact absurd this (by decide)

/-- C8 as amended: supplying a player of another club fails the append
with the ownership error and creates nothing, and both append and the
correction operation preserve the club-ownership property of a ledger;
the property is nevertheless not a ledger-wide invariant, because the
unguarded update action can re-point a stored event at another club's
player. -/
theorem append_enforces_player_ownership :
    (∀ (s : LedgerState) (p : PlayerRec) (mi : Nat) (et : EventType)
       (d : String) (cl : Option Nat),
      p.club ≠ s.mtch.club →
      perform_create s (some p) mi et d cl = .error .ownershipViolation)
    ∧ (∀ (s : LedgerState) (p : Option PlayerRec) (mi : Nat)
         (et : EventType) (d : String) (cl : Option Nat)
         (s' : LedgerState) (e : MatchEvent),
        perform_create s p mi et d cl = .ok (s', e) →
        PlayerOwned s → PlayerOwned s')
    ∧ (∀ (s : LedgerState) (eid : Nat) (s' : LedgerState) (ce : MatchEvent),
        undo s eid = .ok (s', ce) →
        PlayerOwned s → PlayerOwned s') := by
  refine ⟨?_, ?_, ?_⟩
  · intro s p mi et d cl hcl
    simp [perform_create, hcl]
  · intro s p mi et d cl s' e h hpo
    obtain ⟨hst, hclk, hs', he⟩ := perform_create_ok h
    subst hs' he
    intro ev hmem q hq
    simp only [List.mem_append, List.mem_singleton] at hmem
    rcases hmem with hmem | hmem
    · exact hpo ev hmem q hq
    · subst hmem; exact hclk q hq
  · intro s eid s' ce h hpo
    obtain ⟨orig, hfind, hid, hcor, hce, hs'⟩ := undo_ok h
    have horigmem : orig ∈ s.events := List.mem_of_find?_eq_some hfind
    subst hs'
    intro ev hmem q hq
    simp only [List.mem_append, List.mem_singleton] at hmem
    rcases hmem with hmem | hmem
    · obtain ⟨ev0, hev0, hfe⟩ := List.mem_map.mp hmem
      have hpl : ev.player = ev0.player := by
        subst hfe; by_cases hc : ev0.id == eid <;> simp [hc]
      exact hpo ev0 hev0 q (hpl ▸ hq)
    · subst hmem
      rw [hce] at hq
      exact hpo orig horigmem q hq

/-- Concrete run: appending with a club-2 player to the club-1 match is
rejected with the ownership error. -/
theorem append_enforces_player_ownership_witness :
    perform_create (initState demoMatch) (some demoOtherPlayer) 3
      .tackle_won "" none = .error .ownershipViolation :=
  append_enforces_player_ownership.1 (initState demoMatch) demoOtherPlayer
    3 .tackle_won "" none (by decide)

/-- C9 as amended: the on-demand snapshot's score block is read from the
stored fields of the `Match` row; ledger operations (append and undo)
never modify the match row, so the snapshot score is independent of the
event ledger rather than equal to the aggregator's recomputation. -/
theorem snapshot_reads_stored_fields_only :
    (∀ (s : LedgerState) (p : Option PlayerRec) (mi : Nat) (et : EventType)
       (d : String) (cl : Option Nat) (s' : LedgerState) (e : MatchEvent),
      perform_create s p mi et d cl = .ok (s', e) →
      s'.mtch = s.mtch ∧ get_match_state_score s' = get_match_state_score s)
    ∧ (∀ (s : LedgerState) (eid : Nat) (s' : LedgerState) (ce : MatchEvent),
        undo s eid = .ok (s', ce) →
        s'.mtch = s.mtch ∧ get_match_state_score s' = get_match_state_score s)
    ∧ (∀ s : LedgerState,
        (get_match_state_score s).total = total_club_score s.mtch) := by
  refine ⟨?_, ?_, ?_⟩
  · intro s p mi et d cl s' e h
    obtain ⟨-, -, hs', -⟩ := perform_create_ok h
    subst hs'
    exact ⟨rfl, rfl⟩
  · intro s eid s' ce h
    obtain ⟨orig, -, -, -, -, hs'⟩ := undo_ok h
    subst hs'
    exact ⟨rfl, rfl⟩
  · intro s
    rfl

/-- Concrete run: the goal append leaves the snapshot score exactly what
it was on the fresh match. -/
theorem snapshot_reads_stored_fields_only_witness :
    get_match_state_score demoSGoal
      = get_match_state_score (initState demoMatch) :=
  (snapshot_reads_stored_fields_only.1 (initState demoMatch)
    (some demoPlayer) 10 .score_goal "" none demoSGoal demoEGoal rfl).2

/-- C5 as amended: every successful append stamps the event with the
server-assigned next primary key - strictly greater than every existing
event's id and independent of the user-supplied minute - but the event
listing endpoint serves the events ordered by minute, not by that id. -/
theorem append_id_increasing_listing_by_minute :
    (∀ (s : LedgerState) (p : Option PlayerRec) (mi : Nat) (et : EventType)
       (d : String) (cl : Option Nat) (s' : LedgerState) (e : MatchEvent),
      Reachable s →
      perform_create s p mi et d cl = .ok (s', e) →
      e.id = s.nextId ∧ s'.nextId = s.nextId + 1
      ∧ (∀ e' ∈ s.events, e'.id < e.id) ∧ e.minute = mi)
    ∧ (∀ s : LedgerState,
        (events_for_match s).Perm s.events
        ∧ (events_for_match s).Pairwise fun a b => a.minute ≤ b.minute) := by
  constructor
  · intro s p mi et d cl s' e hr h
    obtain ⟨hib, -⟩ := reachable_inv hr
    obtain ⟨-, -, hs', he⟩ := perform_create_ok h
    subst hs' he
    exact ⟨rfl, rfl, fun e' he' => hib e' he', rfl⟩
  · intro s
    exact ⟨sortByMinute_perm s.events, sortByMinute_pairwise s.events⟩

/-- Concrete run: the second append (minute 30) receives id 1, strictly
above the id of the earlier minute-45 event. -/
theorem append_id_increasing_listing_by_minute_witness :
    demoE30.id = 1 ∧ demoE45.id < demoE30.id := by
  have hstep : perform_create (initState demoMatch) (some demoPlayer) 45
      .shot_wide "" none = .ok (demoS45, demoE45) := rfl
  have hr : Reachable demoS45 :=
    Reachable.step_append (Reachable.init demoMatch) hstep
  have h := append_id_increasing_listing_by_minute.1 demoS45
    (some demoPlayer) 30 .shot_wide "" none demoS4530 demoE30 hr rfl
  exact ⟨h.1, h.2.2.1 demoE45 (by simp [demoS45])⟩

/-- A find in the left part of an append is the find of the whole. -/
theorem find?_append_left {l₁ l₂ : List MatchEvent} {p : MatchEvent → Bool}
    {b : MatchEvent} (h : l₁.find? p = some b) :
    (l₁ ++ l₂).find? p = some b := by
  rw [List.find?_append, h]
  rfl

/-- Setting the correction link does not change which event an id-based
predicate selects. -/
theorem link_update_preserves_id_pred (eid nid : Nat) :
    ((fun e : MatchEvent => e.id == eid) ∘
      fun ev =>
        if ev.id == eid then { ev with corrected_event := some nid }
        else ev) = fun e : MatchEvent => e.id == eid := by
  funext ev
  simp only [Function.comp_apply]
  split <;> rfl

/-- Looking up the corrected original after the link update yields the
original with its link set. -/
theorem find?_map_link_update {evs : List MatchEvent} {eid nid : Nat}
    {orig : MatchEvent} (h : evs.find? (fun e => e.id == eid) = some orig) :
    (evs.map fun ev =>
        if ev.id == eid then { ev with corrected_event := some nid }
        else ev).find? (fun e => e.id == eid)
      = some { orig with corrected_event := some nid } := by
  rw [List.find?_map, link_update_preserves_id_pred, h]
  have hbeq : (orig.id == eid) = true := by
    have := List.find?_some h
    simpa using this
  have hid : orig.id = eid := by simpa using hbeq
  simp [hid]

/-- C3 as amended: `correct(E1)` fails with `AlreadyCorrected` when E1's
correction link is non-null; otherwise it creates a copy of E1's kind,
player, minute and payload, sets E1's link to the copy, and returns the
copy; a second call fails with `AlreadyCorrected`.  However the copy is
itself stored with a correction link pointing back at E1, so after one
correction the pair carries two correction links - exactly one of them
(E1's, to its successor) originating from E1, which occurs once. -/
theorem undo_correct_behavior :
    ∀ (s : LedgerState) (eid : Nat) (orig : MatchEvent),
    Reachable s →
    s.events.find? (fun e => e.id == eid) = some orig →
    (orig.corrected_event.isSome → undo s eid = .error .alreadyCorrected)
    ∧ (∀ (s' : LedgerState) (ce : MatchEvent), undo s eid = .ok (s', ce) →
        ce.event_type = orig.event_type ∧ ce.player = orig.player
        ∧ ce.minute = orig.minute ∧ ce.data = orig.data
        ∧ ce.corrected_event = some eid
        ∧ (∀ e ∈ s'.events, e.id = eid → e.corrected_event = some ce.id)
        ∧ (s'.events.countP fun e => e.id == eid) = 1
        ∧ undo s' eid = .error .alreadyCorrected) := by
  intro s eid orig hr hfind
  obtain ⟨hib, hnd⟩ := reachable_inv hr
  have horigmem : orig ∈ s.events := List.mem_of_find?_eq_some hfind
  have horigid : orig.id = eid := by
    have := List.find?_some hfind
    simpa using this
  have hlt : eid < s.nextId := horigid ▸ hib orig horigmem
  constructor
  · intro hsome
    simp [undo, hfind, hsome]
  · intro s' ce h
    obtain ⟨orig', hfind', hid', hcor, hce, hs'⟩ := undo_ok h
    rw [hfind] at hfind'
    have horig : orig = orig' := by
      injection hfind'
    subst horig
    subst hs'
    refine ⟨by rw [hce], by rw [hce], by rw [hce], by rw [hce], ?_, ?_, ?_, ?_⟩
    · rw [hce, horigid]
    · intro e hmem hide
      rcases List.mem_append.mp hmem with hmem | hmem
      · obtain ⟨ev, hev, hfe⟩ := List.mem_map.mp hmem
        by_cases hc : ev.id = eid
        · rw [← hfe]
          have hcard : ce.id = s.nextId := by rw [hce]
          simp [hc, hcard]
        · exfalso
          apply hc
          rw [← hfe] at hide
          simp [hc] at hide
      · exfalso
        rw [List.mem_singleton] at hmem
        subst hmem
        rw [hce] at hide
        exact Nat.ne_of_gt hlt hide
    · rw [List.countP_append, List.countP_map, link_update_preserves_id_pred]
      have h1 : List.countP (fun e : MatchEvent => e.id == eid) [ce] = 0 := by
        have : ce.id = s.nextId := by rw [hce]
        simp [List.countP_cons, this, Nat.ne_of_gt hlt]
      have h2 : List.countP (fun e : MatchEvent => e.id == eid) s.events
          = 1 := by
        have hmapc : (s.events.map fun e => e.id).count eid = 1 :=
          List.count_eq_one_of_mem hnd
            (List.mem_map.mpr ⟨orig, horigmem, horigid⟩)
        rw [← hmapc, List.count, List.countP_map]
        rfl
      rw [h1, h2]
    · have hmap := @find?_map_link_update s.events eid s.nextId orig hfind
      have hfound := @find?_append_left _ [ce] _ _ hmap
      unfold undo
      rw [hfound]
      rfl

/-- Concrete run of the amended correction behavior: undoing the demo
tackle returns the copy with its back link, and a second undo of the
same event fails with `AlreadyCorrected`. -/
theorem undo_correct_behavior_witness :
    undo demoS1 0 = .ok (demoS2, demoE2)
    ∧ demoE2.corrected_event = some 0
    ∧ undo demoS2 0 = .error .alreadyCorrected := by
  have hstep : perform_create (initState demoMatch) (some demoPlayer) 5
      .tackle_won "" none = .ok (demoS1, demoE1) := rfl
  have hr : Reachable demoS1 :=
    Reachable.step_append (Reachable.init demoMatch) hstep
  have h := (undo_correct_behavior demoS1 0 demoE1 hr rfl).2 demoS2 demoE2 rfl
  exact ⟨rfl, h.2.2.2.2.1, h.2.2.2.2.2.2.2⟩

/-- Undo fails with `AlreadyCorrected` whenever the event the lookup
returns already carries a correction link. -/
theorem undo_error_of_find_some {s : LedgerState} {eid : Nat}
    {orig : MatchEvent}
    (hfind : s.events.find? (fun e => e.id == eid) = some orig)
    (hsome : orig.corrected_event.isSome = true) :
    undo s eid = .error .alreadyCorrected := by
  simp [undo, hfind, hsome]

/-- The second event of the client-built chain: created through the
append endpoint with a client-supplied link to event 0. -/
def demoZ : MatchEvent :=
  { id := 1, matchId := 1, player := some demoPlayer, minute := 6,
    event_type := .tackle_won, data := "", corrected_event := some 0 }

/-- The third event of the client-built chain: created with a
client-supplied link to event 1. -/
def demoY : MatchEvent :=
  { id := 2, matchId := 1, player := some demoPlayer, minute := 7,
    event_type := .tackle_won, data := "", corrected_event := some 1 }

/-- The ledger after appending event 0 and the linked event 1. -/
def demoChainMid : LedgerState :=
  { mtch := demoMatch, events := [demoE1, demoZ], nextId := 2 }

/-- The ledger holding the chain Y(2) links Z(1) links A(0). -/
def demoChainState : LedgerState :=
  { mtch := demoMatch, events := [demoE1, demoZ, demoY], nextId := 3 }

/-- The demo post-undo ledger after an update request clears the copy's
back link. -/
def demoS2Cleared : LedgerState :=
  update_event demoS2 1 (some demoPlayer) 5 .tackle_won "" none

/-- C10 counterexample: correction chains of length greater than one are
constructible through the public interface.  The append endpoint
persists a client-supplied `corrected_event`, so three create requests
build the chain Y linking Z linking A with no backlinks - the mutual
pair shape fails in a reachable state.  Moreover an update request can
clear the backlink of an undo-created copy, after which undoing that
copy succeeds rather than failing the already-corrected check. -/
theorem client_links_build_chain :
    perform_create demoS1 (some demoPlayer) 6 .tackle_won "" (some 0)
      = .ok (demoChainMid, demoZ)
    ∧ perform_create demoChainMid (some demoPlayer) 7 .tackle_won "" (some 1)
      = .ok (demoChainState, demoY)
    ∧ Reachable demoChainState
    ∧ demoY.corrected_event = some demoZ.id
    ∧ demoZ.corrected_event = some demoE1.id
    ∧ demoE1.corrected_event = none
    ∧ ¬MutualLinks demoChainState
    ∧ Reachable demoS2Cleared
    ∧ (∃ s' ce, undo demoS2Cleared 1 = .ok (s', ce)) := by
  have hstep1 : perform_create (initState demoMatch) (some demoPlayer) 5
      .tackle_won "" none = .ok (demoS1, demoE1) := rfl
  have hundo : undo demoS1 0 = .ok (demoS2, demoE2) := rfl
  have hstep2 : perform_create demoS1 (some demoPlayer) 6 .tackle_won ""
      (some 0) = .ok (demoChainMid, demoZ) := rfl
  have hstep3 : perform_create demoChainMid (some demoPlayer) 7 .tackle_won ""
      (some 1) = .ok (demoChainState, demoY) := rfl
  refine ⟨rfl, rfl, ?_, rfl, rfl, rfl, ?_, ?_, ?_⟩
  · exact Reachable.step_append
      (Reachable.step_append
        (Reachable.step_append (Reachable.init demoMatch) hstep1) hstep2)
      hstep3
  · intro h
    obtain ⟨e₂, hmem, hid2, hlk⟩ := h demoZ
      (List.mem_cons_of_mem _ (List.mem_cons_self _ _)) 0 rfl
    simp only [demoChainState, List.mem_cons, List.not_mem_nil,
      or_false] at hmem
    rcases hmem with rfl | rfl | rfl
    · exact absurd hlk (by decide)
    · exact absurd hid2 (by decide)
    · exact absurd hid2 (by decide)
  · exact Reachable.step_update
      (Reachable.step_undo
        (Reachable.step_append (Reachable.init demoMatch) hstep1) hundo)
  · exact ⟨{ mtch := demoMatch,
             events :=
               [{ id := 0, matchId := 1, player := some demoPlayer,
                  minute := 5, event_type := .tackle_won, data := "",
                  corrected_event := some 1 },
                { id := 1, matchId := 1, player := some demoPlayer,
                  minute := 5, event_type := .tackle_won, data := "",
                  corrected_event := some 2 },
                { id := 2, matchId := 1, player := some demoPlayer,
                  minute := 5, event_type := .tackle_won, data := "",
                  corrected_event := some 1 }],
             nextId := 3 },
           { id := 2, matchId := 1, player := some demoPlayer, minute := 5,
             event_type := .tackle_won, data := "",
             corrected_event := some 1 }, rfl⟩

/-- C10 as amended: the copy created by the correction operation itself
is stored with a non-null correction link pointing back at the original,
so undoing the copy in the state the correction produced fails the
already-corrected check. -/
theorem undo_copy_blocks_immediate_redo :
    ∀ (s : LedgerState) (eid : Nat) (s' : LedgerState) (ce : MatchEvent),
    Reachable s →
    undo s eid = .ok (s', ce) →
    ce.corrected_event = some eid
    ∧ undo s' ce.id = .error .alreadyCorrected := by
  intro s eid s' ce hr h
  obtain ⟨hib, hnd⟩ := reachable_inv hr
  obtain ⟨orig, hfind, hid, hcor, hce, hs'⟩ := undo_ok h
  have horigmem : orig ∈ s.events := List.mem_of_find?_eq_some hfind
  constructor
  · rw [hce, hid]
  · subst hs'
    have hceid : ce.id = s.nextId := by rw [hce]
    have hfm :
        (s.events.map fun ev =>
          if ev.id == eid then { ev with corrected_event := some s.nextId }
          else ev).find? (fun e => e.id == ce.id) = none := by
      apply List.find?_eq_none.mpr
      intro e hmem
      obtain ⟨ev, hev, hfe⟩ := List.mem_map.mp hmem
      have hpe : e.id = ev.id := by
        rw [← hfe]
        split <;> rfl
      simp [hpe, hceid, Nat.ne_of_lt (hib ev hev)]
    have hfound :
        ((s.events.map fun ev =>
            if ev.id == eid then
              { ev with corrected_event := some s.nextId }
            else ev) ++ [ce]).find? (fun e => e.id == ce.id)
          = some ce := by
      rw [List.find?_append, hfm]
      simp
    have hsomece : ce.corrected_event.isSome = true := by
      rw [hce]
      rfl
    exact undo_error_of_find_some hfound hsomece

/-- Concrete run: the copy from the demo undo links back to event 0, and
undoing the copy in the post-undo state fails with `AlreadyCorrected`. -/
theorem undo_copy_blocks_immediate_redo_witness :
    demoE2.corrected_event = some 0
    ∧ undo demoS2 demoE2.id = .error .alreadyCorrected := by
  have hstep : perform_create (initState demoMatch) (some demoPlayer) 5
      .tackle_won "" none = .ok (demoS1, demoE1) := rfl
  have hr : Reachable demoS1 :=
    Reachable.step_append (Reachable.init demoMatch) hstep
  exact undo_copy_blocks_immediate_redo demoS1 0 demoS2 demoE2 hr rfl
